import Mathlib

/-!
A shallow embedding of the data-derivation layer of the gas-consumption
visualization application: the string utilities, aggregation functions and
color mapping of dataUtils, the national-average and per-year ranking
computations of the Home and MunicipalityDetail pages, and the
year-over-year change computation of MunicipalityDetail.

Strings are modelled as lists of characters.  JavaScript number arithmetic
on the rational values appearing here is modelled by the rational numbers;
a division by zero, which in JavaScript produces NaN or an infinity, is
marked explicitly rather than given a junk value.  JavaScript's stable
ascending Array.prototype.sort is modelled by a stable insertion sort.
-/

namespace GasApp

/-- One record of the consumption dataset (GasConsumptionRecord in the
source: municipality display name, year, gas consumption). -/
structure Record where
  municipality : List Char
  year : ℤ
  gas_consumption : ℚ
deriving DecidableEq

/-- Tests whether the pattern occurs at the start of the subject. -/
def leadsWith : List Char → List Char → Bool
  | [], _ => true
  | _ :: _, [] => false
  | p :: ps, c :: cs => p == c && leadsWith ps cs

/-- Tests whether the pattern occurs anywhere in the subject. -/
def containsSub (pat : List Char) : List Char → Bool
  | [] => leadsWith pat []
  | c :: rest => leadsWith pat (c :: rest) || containsSub pat rest

/-- JavaScript String.prototype.replace with a plain-string pattern:
replaces the first occurrence of the pattern in the subject by rep. -/
def replaceFirst (pat rep : List Char) : List Char → List Char
  | [] => if leadsWith pat [] then rep else []
  | c :: rest =>
    if leadsWith pat (c :: rest) then rep ++ (c :: rest).drop pat.length
    else c :: replaceFirst pat rep rest

/-- The whitespace forms relevant to this dataset (space, tab, LF, CR),
as trimmed by JavaScript String.prototype.trim. -/
def jsIsSpace (c : Char) : Bool :=
  c.toNat == 32 || c.toNat == 9 || c.toNat == 10 || c.toNat == 13

/-- Removes trailing whitespace characters. -/
def trimTrailing : List Char → List Char
  | [] => []
  | c :: rest =>
    let t := trimTrailing rest
    if t = [] then (if jsIsSpace c then [] else [c]) else c :: t

/-- JavaScript String.prototype.trim restricted to the whitespace forms
above: removes leading and trailing whitespace. -/
def trim (s : List Char) : List Char :=
  trimTrailing (s.dropWhile jsIsSpace)

/-- The eleven parenthetical suffixes stripped by
normalizeMunicipalityName, in source order (the sixth one is the
mojibake form present verbatim in the source). -/
def suffixStrings : List (List Char) :=
  [" (gemeente)".toList, " (Utrecht)".toList, " (Groningen)".toList,
   " (Limburg)".toList, " (Friesland)".toList, " (Frysl√¢n)".toList,
   " (Noord-Brabant)".toList, " (Gelderland)".toList,
   " (Noord-Holland)".toList, " (Zuid-Holland)".toList,
   " (Overijssel)".toList]

/-- normalizeMunicipalityName: the chain of eleven first-occurrence
string replacements of the source, followed by trim. -/
def normalizeMunicipalityName (name : List Char) : List Char :=
  trim (suffixStrings.foldl (fun s pat => replaceFirst pat [] s) name)

/-- JavaScript toLowerCase restricted to ASCII letters, the only case
mapping that can affect a slug (any other character, upper case or not,
is outside the class a-z, 0-9 and is collapsed to a hyphen). -/
def jsToLower (c : Char) : Char :=
  if 65 ≤ c.toNat ∧ c.toNat ≤ 90 then Char.ofNat (c.toNat + 32) else c

/-- Keeps every character except the ASCII apostrophe, code point 39 (the
character class of the first replace in slugify contains that character
twice). -/
def notApostrophe (c : Char) : Bool := c.toNat != 39

/-- Membership in the character class a-z, 0-9 of the slugify regex. -/
def isLowerAlnum (c : Char) : Bool :=
  (97 ≤ c.toNat && c.toNat ≤ 122) || (48 ≤ c.toNat && c.toNat ≤ 57)

/-- Replaces every maximal run of characters outside a-z, 0-9 by a single
hyphen; the flag records whether a run is currently open. -/
def collapseAux : Bool → List Char → List Char
  | _, [] => []
  | inRun, c :: rest =>
    if isLowerAlnum c then c :: collapseAux false rest
    else if inRun then collapseAux true rest
    else '-' :: collapseAux true rest

/-- The run-collapsing replacement of slugify. -/
def collapseRuns (s : List Char) : List Char := collapseAux false s

/-- The leading half of the final replace of slugify: the anchor matches
at most one hyphen at the start. -/
def stripLeadingHyphen : List Char → List Char
  | [] => []
  | c :: rest => if c = '-' then rest else c :: rest

/-- The trailing half of the final replace of slugify: the anchor matches
at most one hyphen at the end. -/
def stripTrailingHyphen (s : List Char) : List Char :=
  if s.getLast? = some '-' then s.dropLast else s

/-- slugify: lower-case, drop apostrophes, collapse non-alphanumeric runs
to single hyphens, strip a leading and a trailing hyphen. -/
def slugify (name : List Char) : List Char :=
  stripTrailingHyphen
    (stripLeadingHyphen (collapseRuns ((name.map jsToLower).filter notApostrophe)))

/-- The distinct elements of a list in first-occurrence order (the
iteration order of a JavaScript Set built from an array). -/
def uniqueFirst : List (List Char) → List (List Char)
  | [] => []
  | a :: rest => a :: (uniqueFirst rest).filter (fun b => !(b == a))

/-- findMunicipalityBySlug: the distinct municipality names of the
dataset in first-occurrence order, returning the first whose slug equals
the query, or none. -/
def findMunicipalityBySlug (data : List Record) (slug : List Char) :
    Option (List Char) :=
  (uniqueFirst (data.map (fun r => r.municipality))).find?
    (fun name => slugify name == slug)

/-- getConsumptionByYear: one pass over the dataset; records of the given
year write their consumption under their normalized name, later writes
overwriting earlier ones.  The JavaScript object is modelled as a
function from names to optional values. -/
def getConsumptionByYear (data : List Record) (year : ℤ) :
    List Char → Option ℚ :=
  data.foldl
    (fun result r =>
      if r.year = year then
        fun name =>
          if name = normalizeMunicipalityName r.municipality then
            some r.gas_consumption
          else result name
      else result)
    (fun _ => none)

/-- One step of the getConsumptionRange scan.  JavaScript's Infinity and
negative Infinity seeds are the top of WithTop and the bottom of
WithBot. -/
def rangeStep (p : WithTop ℚ × WithBot ℚ) (r : Record) :
    WithTop ℚ × WithBot ℚ :=
  (if (r.gas_consumption : WithTop ℚ) < p.1 then (r.gas_consumption : WithTop ℚ)
   else p.1,
   if p.2 < (r.gas_consumption : WithBot ℚ) then (r.gas_consumption : WithBot ℚ)
   else p.2)

/-- getConsumptionRange: a single linear scan over all records. -/
def getConsumptionRange (data : List Record) : WithTop ℚ × WithBot ℚ :=
  data.foldl rangeStep (⊤, ⊥)

/-- JavaScript Math.round on a finite value: the floor of the argument
plus one half (half-way values round up). -/
def jsRound (q : ℚ) : ℤ := ⌊q + 1 / 2⌋

/-- The value of getColorForConsumption: the neutral no-data color
(the string starting with the hash sign and the letters ccc), an rgb
triple of integer channels, or a non-finite result (NaN or an infinity in
at least one channel). -/
inductive JsColor where
  | noData : JsColor
  | rgb : ℤ → ℤ → ℤ → JsColor
  | nonFinite : JsColor
deriving DecidableEq

/-- getColorForConsumption: a missing value yields the neutral color;
otherwise the ratio of the value within the range drives a two-point
gradient, each channel rounded.  When the range is degenerate the
JavaScript division by zero makes the ratio, hence every channel,
non-finite, marked nonFinite here. -/
def getColorForConsumption (value : Option ℚ) (min max : ℚ) : JsColor :=
  match value with
  | none => JsColor.noData
  | some v =>
    if max - min = 0 then JsColor.nonFinite
    else
      JsColor.rgb
        (jsRound (254 - (v - min) / (max - min) * (254 - 165)))
        (jsRound (224 - (v - min) / (max - min) * (224 - 15)))
        (jsRound (210 - (v - min) / (max - min) * (210 - 21)))

/-- The comparator of the per-year ranking sort: ascending consumption. -/
def consLe : Record → Record → Prop :=
  fun a b => a.gas_consumption ≤ b.gas_consumption

instance : DecidableRel consLe :=
  fun a b => inferInstanceAs (Decidable (a.gas_consumption ≤ b.gas_consumption))

instance : IsTotal Record consLe :=
  ⟨fun a b => le_total a.gas_consumption b.gas_consumption⟩

instance : IsTrans Record consLe :=
  ⟨fun _ _ _ h h' => le_trans h h'⟩

/-- The records of one year, in dataset order. -/
def yearRecords (data : List Record) (y : ℤ) : List Record :=
  data.filter (fun r => r.year == y)

/-- The records of one year sorted ascending by consumption; insertion
sort is stable, like the JavaScript sort it models. -/
def sortedYearRecords (data : List Record) (y : ℤ) : List Record :=
  List.insertionSort consLe (yearRecords data y)

/-- The ranking assignments of one year in the order they are written:
normalized name, 1-based position in the sorted order, total count. -/
def rankingEntries (data : List Record) (y : ℤ) : List (List Char × ℕ × ℕ) :=
  (sortedYearRecords data y).enum.map
    (fun p =>
      (normalizeMunicipalityName p.2.municipality, p.1 + 1,
       (sortedYearRecords data y).length))

/-- Reading the ranking object of one year at a name: the last write to
that name wins, as in the JavaScript object. -/
def rankingLookup (data : List Record) (y : ℤ) (name : List Char) :
    Option (ℕ × ℕ) :=
  ((rankingEntries data y).reverse.find? (fun e => e.1 == name)).map
    (fun e => e.2)

/-- One step of the yearlyTotals accumulation of
calculateNationalAverages: create or update the sum-and-count entry of
the record's year. -/
def addRecord (acc : List (ℤ × ℚ × ℕ)) (r : Record) : List (ℤ × ℚ × ℕ) :=
  if acc.any (fun e => e.1 == r.year) then
    acc.map (fun e =>
      if e.1 = r.year then (e.1, e.2.1 + r.gas_consumption, e.2.2 + 1) else e)
  else acc ++ [(r.year, r.gas_consumption, 1)]

/-- The per-year sum and count accumulation of
calculateNationalAverages. -/
def yearlyTotals (data : List Record) : List (ℤ × ℚ × ℕ) :=
  data.foldl addRecord []

/-- The comparator of the final sort of calculateNationalAverages:
ascending year. -/
def yearLe : (ℤ × ℤ) → (ℤ × ℤ) → Prop := fun a b => a.1 ≤ b.1

instance : DecidableRel yearLe :=
  fun a b => inferInstanceAs (Decidable (a.1 ≤ b.1))

instance : IsTotal (ℤ × ℤ) yearLe := ⟨fun a b => le_total a.1 b.1⟩

instance : IsTrans (ℤ × ℤ) yearLe := ⟨fun _ _ _ h h' => le_trans h h'⟩

/-- calculateNationalAverages: group by year, round the mean of each
group, sort ascending by year. -/
def calculateNationalAverages (data : List Record) : List (ℤ × ℤ) :=
  List.insertionSort yearLe
    ((yearlyTotals data).map (fun e => (e.1, jsRound (e.2.1 / (e.2.2 : ℚ)))))

/-- The year-over-year change column of enrichedData in
MunicipalityDetail: for each position, none when there is no previous
record, otherwise the percentage change from the previous record. -/
def yearOverYearChanges (records : List Record) : List (Option ℚ) :=
  records.enum.map
    (fun p =>
      match p.1 with
      | 0 => none
      | Nat.succ j =>
        match records.get? j with
        | none => none
        | some prev =>
          some ((p.2.gas_consumption - prev.gas_consumption) /
            prev.gas_consumption * 100))

/-- The sum of the consumption values of one year (used only to state
theorems). -/
def yearSum (data : List Record) (y : ℤ) : ℚ :=
  ((data.filter (fun r => r.year == y)).map (fun r => r.gas_consumption)).sum

/-- The number of records of one year (used only to state theorems). -/
def yearCount (data : List Record) (y : ℤ) : ℕ :=
  (data.filter (fun r => r.year == y)).length

/-- The example dataset of the specification: records A 2020 1000,
B 2020 2000, A 2021 1100. -/
def sampleData : List Record :=
  [⟨"A".toList, 2020, 1000⟩, ⟨"B".toList, 2020, 2000⟩,
   ⟨"A".toList, 2021, 1100⟩]

/-- A dataset in which two records of the same year normalize to the same
name. -/
def collisionData : List Record :=
  [⟨"A (Utrecht)".toList, 2020, 100⟩, ⟨"A".toList, 2020, 200⟩]

/-- A pattern that does not occur in a subject is not replaced. -/
lemma replaceFirst_of_no_occurrence (pat rep : List Char) :
    ∀ s : List Char, containsSub pat s = false → replaceFirst pat rep s = s := by
  intro s
  induction s with
  | nil =>
      intro h
      simp only [containsSub] at h
      simp [replaceFirst, h]
  | cons c rest ih =>
      intro h
      simp only [containsSub, Bool.or_eq_false_iff] at h
      simp [replaceFirst, h.1, ih h.2]

/-- A chain of first-occurrence replacements leaves a subject containing
none of the patterns unchanged. -/
lemma foldl_replaceFirst_id (pats : List (List Char)) (s : List Char)
    (h : ∀ pat ∈ pats, containsSub pat s = false) :
    pats.foldl (fun s pat => replaceFirst pat [] s) s = s := by
  induction pats with
  | nil => rfl
  | cons p ps ih =>
      simp only [List.foldl_cons]
      rw [replaceFirst_of_no_occurrence p [] s (h p (by simp))]
      exact ih fun pat hp => h pat (by simp [hp])

/-- Removing trailing whitespace twice is the same as removing it once. -/
lemma trimTrailing_idem : ∀ s : List Char, trimTrailing (trimTrailing s) = trimTrailing s := by
  intro s
  induction s with
  | nil => rfl
  | cons c rest ih =>
      simp only [trimTrailing]
      by_cases h : trimTrailing rest = []
      · rw [if_pos h]
        by_cases hc : jsIsSpace c = true
        · simp [hc, trimTrailing]
        · simp [hc, trimTrailing]
      · rw [if_neg h]
        simp only [trimTrailing, ih]
        rw [if_neg h]

/-- Removing trailing whitespace keeps the head or empties the list. -/
lemma head?_trimTrailing (s : List Char) :
    trimTrailing s = [] ∨ (trimTrailing s).head? = s.head? := by
  induction s with
  | nil => exact Or.inl rfl
  | cons c rest _ =>
      simp only [trimTrailing]
      by_cases h : trimTrailing rest = []
      · rw [if_pos h]
        by_cases hc : jsIsSpace c = true
        · exact Or.inl (by simp [hc])
        · right
          simp [hc]
      · rw [if_neg h]
        right
        rfl

/-- The head surviving dropWhile fails the predicate. -/
lemma head?_dropWhile_false (p : Char → Bool) (s : List Char) :
    ∀ c, (s.dropWhile p).head? = some c → p c = false := by
  induction s with
  | nil =>
      intro c h
      simp at h
  | cons a rest ih =>
      intro c h
      rw [List.dropWhile_cons] at h
      by_cases hp : p a = true
      · rw [if_pos hp] at h
        exact ih c h
      · rw [if_neg hp] at h
        simp only [List.head?_cons, Option.some.injEq] at h
        subst h
        exact Bool.not_eq_true _ ▸ hp

/-- dropWhile is the identity when the head already fails the
predicate. -/
lemma dropWhile_of_head_false (p : Char → Bool) (s : List Char)
    (h : ∀ c, s.head? = some c → p c = false) : s.dropWhile p = s := by
  cases s with
  | nil => rfl
  | cons a rest =>
      rw [List.dropWhile_cons, if_neg]
      simp [h a rfl]

/-- Trimming is idempotent. -/
lemma trim_idem (s : List Char) : trim (trim s) = trim s := by
  unfold trim
  have h1 : (trimTrailing (s.dropWhile jsIsSpace)).dropWhile jsIsSpace =
      trimTrailing (s.dropWhile jsIsSpace) := by
    apply dropWhile_of_head_false
    intro c hc
    rcases head?_trimTrailing (s.dropWhile jsIsSpace) with h | h
    · rw [h] at hc
      simp at hc
    · rw [h] at hc
      exact head?_dropWhile_false jsIsSpace s c hc
  rw [h1, trimTrailing_idem]

/-- C2, corrected.  Normalization is idempotent for every name whose
normalized form contains no occurrence of any of the eleven suffix
strings (every real municipality name, which carries at most one suffix,
satisfies this); the unrestricted claim is refuted by
normalizeMunicipalityName_not_idempotent. -/
theorem normalizeMunicipalityName_idem (name : List Char)
    (h : ∀ pat ∈ suffixStrings,
      containsSub pat (normalizeMunicipalityName name) = false) :
    normalizeMunicipalityName (normalizeMunicipalityName name) =
      normalizeMunicipalityName name :=
  calc normalizeMunicipalityName (normalizeMunicipalityName name)
      = trim (suffixStrings.foldl (fun s pat => replaceFirst pat [] s)
          (normalizeMunicipalityName name)) := rfl
    _ = trim (normalizeMunicipalityName name) := by
          rw [foldl_replaceFirst_id _ _ h]
    _ = trim (trim (suffixStrings.foldl (fun s pat => replaceFirst pat [] s)
          name)) := rfl
    _ = trim (suffixStrings.foldl (fun s pat => replaceFirst pat [] s)
          name) := trim_idem _
    _ = normalizeMunicipalityName name := rfl

/-- C2, counterexample.  A name containing the gemeente suffix twice is
stripped once per application: the first application yields the name with
one suffix left, the second strips it again, so double application is not
a no-op. -/
theorem normalizeMunicipalityName_not_idempotent :
    normalizeMunicipalityName
        (normalizeMunicipalityName "A (gemeente) (gemeente)".toList) ≠
      normalizeMunicipalityName "A (gemeente) (gemeente)".toList := by
  decide

/-- Witness for the corrected C2 at a concrete suffixed name. -/
theorem normalizeMunicipalityName_idem_witness :
    (∀ pat ∈ suffixStrings,
      containsSub pat
        (normalizeMunicipalityName "Utrecht (gemeente)".toList) = false) ∧
    normalizeMunicipalityName
        (normalizeMunicipalityName "Utrecht (gemeente)".toList) =
      normalizeMunicipalityName "Utrecht (gemeente)".toList :=
  ⟨by decide, normalizeMunicipalityName_idem _ (by decide)⟩

/-- C1.  The code does not clamp the interpolation ratio: at value 0 with
range 100 to 200 the ratio is minus one and every channel is extrapolated
past the light end of the gradient (343, 433, 399), instead of the color
at the minimum (254, 224, 210) that the claim requires. -/
theorem getColorForConsumption_no_clamp :
    getColorForConsumption (some 0) 100 200 = JsColor.rgb 343 433 399 ∧
    getColorForConsumption (some 100) 100 200 = JsColor.rgb 254 224 210 ∧
    JsColor.rgb 343 433 399 ≠ JsColor.rgb 254 224 210 := by
  refine ⟨?_, ?_, by decide⟩
  · simp only [getColorForConsumption, jsRound]
    rw [if_neg (by norm_num)]
    norm_num
  · simp only [getColorForConsumption, jsRound]
    rw [if_neg (by norm_num)]
    norm_num [Int.floor_eq_iff]

/-- C3.  With a degenerate range the code divides by zero: for every
value the ratio and hence every channel is non-finite (NaN or an
infinity), not a defined color as the claim requires. -/
theorem getColorForConsumption_degenerate_nonFinite (v : ℚ) :
    getColorForConsumption (some v) 100 100 = JsColor.nonFinite := by
  simp [getColorForConsumption]

/-- C6, confirmed.  getConsumptionByYear maps a normalized name to the
consumption of the last record of the requested year (in dataset order)
whose municipality normalizes to that name, and to nothing when no such
record exists; records of other years contribute nothing. -/
theorem getConsumptionByYear_lastWriteWins (data : List Record) (y : ℤ)
    (n : List Char) :
    getConsumptionByYear data y n =
      ((data.filter (fun r => r.year == y &&
          normalizeMunicipalityName r.municipality == n)).getLast?).map
        (fun r => r.gas_consumption) := by
  induction data using List.reverseRecOn with
  | nil => rfl
  | append_singleton data r ih =>
      simp only [getConsumptionByYear, List.foldl_append, List.foldl_cons,
        List.foldl_nil] at ih ⊢
      rw [List.filter_append]
      by_cases hy : r.year = y
      · by_cases hn : n = normalizeMunicipalityName r.municipality
        · simp [hy, hn, ite_apply, List.filter_cons, beq_iff_eq]
        · simp [hy, hn, ite_apply, List.filter_cons, beq_iff_eq, ih,
            Ne.symm hn]
      · simp [hy, ite_apply, List.filter_cons, beq_iff_eq, ih]

/-- Invariant of the range scan fold: the accumulated extrema only move
outward, bound every scanned value, and are the seed or an attained
value. -/
lemma foldl_rangeStep_spec (data : List Record) :
    ∀ p : WithTop ℚ × WithBot ℚ,
      (data.foldl rangeStep p).1 ≤ p.1 ∧
      p.2 ≤ (data.foldl rangeStep p).2 ∧
      (∀ r ∈ data,
        (data.foldl rangeStep p).1 ≤ (r.gas_consumption : WithTop ℚ) ∧
        ((r.gas_consumption : WithBot ℚ)) ≤ (data.foldl rangeStep p).2) ∧
      ((data.foldl rangeStep p).1 = p.1 ∨
        ∃ r ∈ data, (data.foldl rangeStep p).1 = (r.gas_consumption : WithTop ℚ)) ∧
      ((data.foldl rangeStep p).2 = p.2 ∨
        ∃ r ∈ data, (data.foldl rangeStep p).2 = (r.gas_consumption : WithBot ℚ)) := by
  induction data with
  | nil =>
      intro p
      exact ⟨le_refl _, le_refl _, by simp, Or.inl rfl, Or.inl rfl⟩
  | cons r rest ih =>
      intro p
      have e1 : (rangeStep p r).1 =
          if (r.gas_consumption : WithTop ℚ) < p.1 then (r.gas_consumption : WithTop ℚ)
          else p.1 := rfl
      have e2 : (rangeStep p r).2 =
          if p.2 < (r.gas_consumption : WithBot ℚ) then (r.gas_consumption : WithBot ℚ)
          else p.2 := rfl
      have h1 : (rangeStep p r).1 ≤ p.1 := by
        rw [e1]
        by_cases h : (r.gas_consumption : WithTop ℚ) < p.1
        · rw [if_pos h]; exact le_of_lt h
        · rw [if_neg h]
      have h1g : (rangeStep p r).1 ≤ (r.gas_consumption : WithTop ℚ) := by
        rw [e1]
        by_cases h : (r.gas_consumption : WithTop ℚ) < p.1
        · rw [if_pos h]
        · rw [if_neg h]; exact le_of_not_lt h
      have h1e : (rangeStep p r).1 = p.1 ∨
          (rangeStep p r).1 = (r.gas_consumption : WithTop ℚ) := by
        rw [e1]
        by_cases h : (r.gas_consumption : WithTop ℚ) < p.1
        · rw [if_pos h]; exact Or.inr rfl
        · rw [if_neg h]; exact Or.inl rfl
      have h2 : p.2 ≤ (rangeStep p r).2 := by
        rw [e2]
        by_cases h : p.2 < (r.gas_consumption : WithBot ℚ)
        · rw [if_pos h]; exact le_of_lt h
        · rw [if_neg h]
      have h2g : (r.gas_consumption : WithBot ℚ) ≤ (rangeStep p r).2 := by
        rw [e2]
        by_cases h : p.2 < (r.gas_consumption : WithBot ℚ)
        · rw [if_pos h]
        · rw [if_neg h]; exact le_of_not_lt h
      have h2e : (rangeStep p r).2 = p.2 ∨
          (rangeStep p r).2 = (r.gas_consumption : WithBot ℚ) := by
        rw [e2]
        by_cases h : p.2 < (r.gas_consumption : WithBot ℚ)
        · rw [if_pos h]; exact Or.inr rfl
        · rw [if_neg h]; exact Or.inl rfl
      obtain ⟨ih1, ih2, ih3, ih4, ih5⟩ := ih (rangeStep p r)
      simp only [List.foldl_cons]
      refine ⟨le_trans ih1 h1, le_trans h2 ih2, ?_, ?_, ?_⟩
      · intro q hq
        rcases List.mem_cons.mp hq with rfl | hq
        · exact ⟨le_trans ih1 h1g, le_trans h2g ih2⟩
        · exact ih3 q hq
      · rcases ih4 with h | ⟨q, hq, hh⟩
        · rcases h1e with h' | h'
          · exact Or.inl (by rw [h, h'])
          · exact Or.inr ⟨r, by simp, by rw [h, h']⟩
        · exact Or.inr ⟨q, List.mem_cons_of_mem _ hq, hh⟩
      · rcases ih5 with h | ⟨q, hq, hh⟩
        · rcases h2e with h' | h'
          · exact Or.inl (by rw [h, h'])
          · exact Or.inr ⟨r, by simp, by rw [h, h']⟩
        · exact Or.inr ⟨q, List.mem_cons_of_mem _ hq, hh⟩

/-- C7, confirmed.  getConsumptionRange is the pair (plus infinity, minus
infinity) on the empty dataset, and on a non-empty dataset a pair of
finite extrema bounding every record's value and each attained by some
record. -/
theorem getConsumptionRange_spec (data : List Record) :
    getConsumptionRange ([] : List Record) = (⊤, ⊥) ∧
    (data ≠ [] →
      ∃ mn mx : ℚ,
        getConsumptionRange data = ((mn : WithTop ℚ), (mx : WithBot ℚ)) ∧
        (∀ r ∈ data, mn ≤ r.gas_consumption ∧ r.gas_consumption ≤ mx) ∧
        (∃ r ∈ data, r.gas_consumption = mn) ∧
        (∃ r ∈ data, r.gas_consumption = mx)) := by
  refine ⟨rfl, fun hne => ?_⟩
  obtain ⟨r0, hr0⟩ : ∃ r0, r0 ∈ data := by
    cases data with
    | nil => exact absurd rfl hne
    | cons a l => exact ⟨a, by simp⟩
  obtain ⟨h1, h2, h3, h4, h5⟩ := foldl_rangeStep_spec data (⊤, ⊥)
  have hmn : ∃ r1, r1 ∈ data ∧
      (data.foldl rangeStep (⊤, ⊥)).1 = (r1.gas_consumption : WithTop ℚ) := by
    rcases h4 with htop | ⟨r1, hr1, hh⟩
    · exfalso
      have hb := (h3 r0 hr0).1
      rw [htop] at hb
      exact WithTop.coe_ne_top (top_le_iff.mp hb)
    · exact ⟨r1, hr1, hh⟩
  have hmx : ∃ r2, r2 ∈ data ∧
      (data.foldl rangeStep (⊤, ⊥)).2 = (r2.gas_consumption : WithBot ℚ) := by
    rcases h5 with hbot | ⟨r2, hr2, hh⟩
    · exfalso
      have hb := (h3 r0 hr0).2
      rw [hbot] at hb
      exact WithBot.coe_ne_bot (le_bot_iff.mp hb)
    · exact ⟨r2, hr2, hh⟩
  obtain ⟨r1, hr1, hc1⟩ := hmn
  obtain ⟨r2, hr2, hc2⟩ := hmx
  refine ⟨r1.gas_consumption, r2.gas_consumption, ?_, ?_, ⟨r1, hr1, rfl⟩,
    ⟨r2, hr2, rfl⟩⟩
  · have hpair : getConsumptionRange data =
        ((data.foldl rangeStep (⊤, ⊥)).1, (data.foldl rangeStep (⊤, ⊥)).2) := rfl
    rw [hpair, hc1, hc2]
  · intro r hr
    constructor
    · have hb := (h3 r hr).1
      rw [hc1] at hb
      exact WithTop.coe_le_coe.mp hb
    · have hb := (h3 r hr).2
      rw [hc2] at hb
      exact WithBot.coe_le_coe.mp hb

/-- Witness for C7 on the example dataset. -/
theorem getConsumptionRange_spec_witness :
    sampleData ≠ [] ∧
    (∃ mn mx : ℚ,
      getConsumptionRange sampleData = ((mn : WithTop ℚ), (mx : WithBot ℚ)) ∧
      (∀ r ∈ sampleData, mn ≤ r.gas_consumption ∧ r.gas_consumption ≤ mx) ∧
      (∃ r ∈ sampleData, r.gas_consumption = mn) ∧
      (∃ r ∈ sampleData, r.gas_consumption = mx)) :=
  ⟨by simp [sampleData],
   (getConsumptionRange_spec sampleData).2 (by simp [sampleData])⟩

/-- The change at position zero is the explicit no-value marker. -/
lemma yearOverYearChanges_get?_zero (records : List Record) (r : Record)
    (hr : records.get? 0 = some r) :
    (yearOverYearChanges records).get? 0 = some none := by
  simp only [yearOverYearChanges, List.get?_eq_getElem?, List.getElem?_map,
    List.getElem?_enum] at hr ⊢
  rw [hr]
  rfl

/-- The change at a successor position is the percentage change from the
previous record. -/
lemma yearOverYearChanges_get?_succ (records : List Record) (i : ℕ)
    (prev cur : Record) (hp : records.get? i = some prev)
    (hc : records.get? (i + 1) = some cur) :
    (yearOverYearChanges records).get? (i + 1) =
      some (some ((cur.gas_consumption - prev.gas_consumption) /
        prev.gas_consumption * 100)) := by
  simp only [yearOverYearChanges, List.get?_eq_getElem?, List.getElem?_map,
    List.getElem?_enum] at hc ⊢
  rw [hc]
  rw [List.get?_eq_getElem?] at hp
  simp [hp]

/-- C8, confirmed.  The year-over-year column has one entry per record;
the first entry is the explicit no-value marker none, never zero; every
later entry is the percentage change from the previous record. -/
theorem yearOverYearChanges_spec (records : List Record) :
    (yearOverYearChanges records).length = records.length ∧
    (∀ r, records.get? 0 = some r →
      (yearOverYearChanges records).get? 0 = some none) ∧
    (∀ i prev cur, records.get? i = some prev →
      records.get? (i + 1) = some cur →
      (yearOverYearChanges records).get? (i + 1) =
        some (some ((cur.gas_consumption - prev.gas_consumption) /
          prev.gas_consumption * 100))) :=
  ⟨by simp [yearOverYearChanges],
   fun r hr => yearOverYearChanges_get?_zero records r hr,
   fun i prev cur hp hc => yearOverYearChanges_get?_succ records i prev cur hp hc⟩

/-- Witness for C8 on the example dataset: after the records with values
1000 and 2000 the change column holds the formula value, and the column
starts with the no-value marker. -/
theorem yearOverYearChanges_spec_witness :
    sampleData.get? 0 = some ⟨"A".toList, 2020, 1000⟩ ∧
    sampleData.get? 1 = some ⟨"B".toList, 2020, 2000⟩ ∧
    (yearOverYearChanges sampleData).get? 1 =
      some (some (((2000 : ℚ) - 1000) / 1000 * 100)) :=
  ⟨by decide, by decide,
   (yearOverYearChanges_spec sampleData).2.2 0 ⟨"A".toList, 2020, 1000⟩
     ⟨"B".toList, 2020, 2000⟩ (by decide) (by decide)⟩

lemma mem_collapseAux (flag : Bool) (s : List Char) :
    ∀ c ∈ collapseAux flag s, isLowerAlnum c = true ∨ c = '-' := by
  induction s generalizing flag with
  | nil =>
      intro c hc
      simp [collapseAux] at hc
  | cons a rest ih =>
      intro c hc
      by_cases ha : isLowerAlnum a = true
      · rw [show collapseAux flag (a :: rest) = a :: collapseAux false rest from by
          simp [collapseAux, ha]] at hc
        rcases List.mem_cons.mp hc with rfl | hc
        · exact Or.inl ha
        · exact ih false c hc
      · cases flag with
        | true =>
            rw [show collapseAux true (a :: rest) = collapseAux true rest from by
              simp [collapseAux, ha]] at hc
            exact ih true c hc
        | false =>
            rw [show collapseAux false (a :: rest) = '-' :: collapseAux true rest from by
              simp [collapseAux, ha]] at hc
            rcases List.mem_cons.mp hc with rfl | hc
            · exact Or.inr rfl
            · exact ih true c hc

lemma head?_collapseAux_true (s : List Char) :
    ∀ b, (collapseAux true s).head? = some b → isLowerAlnum b = true := by
  induction s with
  | nil =>
      intro b hb
      simp [collapseAux] at hb
  | cons a rest ih =>
      intro b hb
      by_cases ha : isLowerAlnum a = true
      · rw [show collapseAux true (a :: rest) = a :: collapseAux false rest from by
          simp [collapseAux, ha]] at hb
        simp only [List.head?_cons, Option.some.injEq] at hb
        exact hb ▸ ha
      · rw [show collapseAux true (a :: rest) = collapseAux true rest from by
          simp [collapseAux, ha]] at hb
        exact ih b hb

lemma chain'_collapseAux (flag : Bool) (s : List Char) :
    List.Chain' (fun a b => a = '-' → isLowerAlnum b = true) (collapseAux flag s) := by
  induction s generalizing flag with
  | nil => simp [collapseAux]
  | cons a rest ih =>
      by_cases ha : isLowerAlnum a = true
      · rw [show collapseAux flag (a :: rest) = a :: collapseAux false rest from by
          simp [collapseAux, ha]]
        rw [List.chain'_cons']
        refine ⟨?_, ih false⟩
        intro y _ hah
        rw [hah] at ha
        exact absurd ha (by decide)
      · cases flag with
        | true =>
            rw [show collapseAux true (a :: rest) = collapseAux true rest from by
              simp [collapseAux, ha]]
            exact ih true
        | false =>
            rw [show collapseAux false (a :: rest) = '-' :: collapseAux true rest from by
              simp [collapseAux, ha]]
            rw [List.chain'_cons']
            refine ⟨?_, ih true⟩
            intro y hy _
            exact head?_collapseAux_true rest y (Option.mem_def.mp hy)

lemma collapseAux_false_fix : ∀ t : List Char,
    (∀ c ∈ t, isLowerAlnum c = true ∨ c = '-') →
    List.Chain' (fun a b => a = '-' → isLowerAlnum b = true) t →
    collapseAux false t = t := by
  intro t
  induction t with
  | nil => intro _ _; rfl
  | cons c rest ih =>
      intro hchar hch
      by_cases hc : isLowerAlnum c = true
      · have hrest := ih (fun x hx => hchar x (List.mem_cons_of_mem _ hx)) hch.tail
        simp [collapseAux, hc, hrest]
      · have hc' : c = '-' := (hchar c (by simp)).resolve_left hc
        subst hc'
        cases rest with
        | nil => simp [collapseAux, hc]
        | cons d rest' =>
            have hd : isLowerAlnum d = true := (List.chain'_cons.mp hch).1 rfl
            have hrest : collapseAux false (d :: rest') = d :: rest' :=
              ih (fun x hx => hchar x (List.mem_cons_of_mem _ hx)) hch.tail
            have h2 : collapseAux false (d :: rest') = d :: collapseAux false rest' := by
              simp [collapseAux, hd]
            rw [h2] at hrest
            have h3 : collapseAux false rest' = rest' := by
              injection hrest
            have h1 : collapseAux true (d :: rest') = d :: collapseAux false rest' := by
              simp [collapseAux, hd]
            simp [collapseAux, hc, h1, h3, hd]

lemma mem_stripLeadingHyphen (s : List Char) : ∀ c ∈ stripLeadingHyphen s, c ∈ s := by
  cases s with
  | nil => simp [stripLeadingHyphen]
  | cons a rest =>
      intro c hc
      by_cases ha : a = '-'
      · rw [show stripLeadingHyphen (a :: rest) = rest from by
          simp [stripLeadingHyphen, ha]] at hc
        exact List.mem_cons_of_mem _ hc
      · rw [show stripLeadingHyphen (a :: rest) = a :: rest from by
          simp [stripLeadingHyphen, ha]] at hc
        exact hc

lemma mem_stripTrailingHyphen (s : List Char) : ∀ c ∈ stripTrailingHyphen s, c ∈ s := by
  intro c hc
  unfold stripTrailingHyphen at hc
  by_cases h : s.getLast? = some '-'
  · rw [if_pos h] at hc
    exact (List.dropLast_sublist s).subset hc
  · rw [if_neg h] at hc
    exact hc

lemma chain'_stripLeadingHyphen {R : Char → Char → Prop} (s : List Char)
    (h : List.Chain' R s) : List.Chain' R (stripLeadingHyphen s) := by
  cases s with
  | nil => exact h
  | cons a rest =>
      by_cases ha : a = '-'
      · rw [show stripLeadingHyphen (a :: rest) = rest from by
          simp [stripLeadingHyphen, ha]]
        exact h.tail
      · rw [show stripLeadingHyphen (a :: rest) = a :: rest from by
          simp [stripLeadingHyphen, ha]]
        exact h

lemma chain'_dropLast {R : Char → Char → Prop} (s : List Char)
    (h : List.Chain' R s) : List.Chain' R s.dropLast := by
  by_cases hs : s = []
  · subst hs; simp
  · have hd := List.dropLast_append_getLast hs
    rw [← hd] at h
    exact (List.chain'_append.mp h).1

lemma chain'_stripTrailingHyphen {R : Char → Char → Prop} (s : List Char)
    (h : List.Chain' R s) : List.Chain' R (stripTrailingHyphen s) := by
  unfold stripTrailingHyphen
  by_cases hl : s.getLast? = some '-'
  · rw [if_pos hl]
    exact chain'_dropLast s h
  · rw [if_neg hl]
    exact h

lemma head?_stripLeading_collapse (u : List Char) :
    ∀ b, (stripLeadingHyphen (collapseAux false u)).head? = some b →
      isLowerAlnum b = true := by
  cases u with
  | nil =>
      intro b hb
      simp [collapseAux, stripLeadingHyphen] at hb
  | cons a rest =>
      intro b hb
      by_cases ha : isLowerAlnum a = true
      · have ha' : a ≠ '-' := fun h => by rw [h] at ha; exact absurd ha (by decide)
        rw [show collapseAux false (a :: rest) = a :: collapseAux false rest from by
          simp [collapseAux, ha]] at hb
        rw [show stripLeadingHyphen (a :: collapseAux false rest) =
            a :: collapseAux false rest from by simp [stripLeadingHyphen, ha']] at hb
        simp only [List.head?_cons, Option.some.injEq] at hb
        exact hb ▸ ha
      · rw [show collapseAux false (a :: rest) = '-' :: collapseAux true rest from by
          simp [collapseAux, ha]] at hb
        rw [show stripLeadingHyphen ('-' :: collapseAux true rest) =
            collapseAux true rest from by simp [stripLeadingHyphen]] at hb
        exact head?_collapseAux_true rest b hb

lemma head?_stripTrailingHyphen (s : List Char) (b : Char)
    (hb : (stripTrailingHyphen s).head? = some b) :
    s.head? = some b := by
  unfold stripTrailingHyphen at hb
  by_cases hl : s.getLast? = some '-'
  · rw [if_pos hl] at hb
    by_cases hs : s = []
    · subst hs; simp at hb
    · have hd := List.dropLast_append_getLast hs
      rw [← hd, List.head?_append, hb]
      rfl
  · rw [if_neg hl] at hb
    exact hb

lemma getLast?_stripTrailingHyphen (s : List Char)
    (hch : List.Chain' (fun a b => a = '-' → isLowerAlnum b = true) s) :
    ∀ b, (stripTrailingHyphen s).getLast? = some b → b ≠ '-' := by
  intro b hb
  unfold stripTrailingHyphen at hb
  by_cases hl : s.getLast? = some '-'
  · rw [if_pos hl] at hb
    by_cases hs : s = []
    · subst hs; simp at hb
    · have hd := List.dropLast_append_getLast hs
      rw [← hd] at hch
      have h3 := (List.chain'_append.mp hch).2.2
      have hlast : s.getLast hs = '-' := by
        have h4 : s.getLast? = some (s.getLast hs) := List.getLast?_eq_getLast s hs
        rw [h4] at hl
        exact Option.some.inj hl
      intro hb'
      have h5 := h3 b (Option.mem_def.mpr hb) (s.getLast hs)
        (Option.mem_def.mpr rfl) hb'
      rw [hlast] at h5
      exact absurd h5 (by decide)
  · rw [if_neg hl] at hb
    intro hb'
    rw [hb'] at hb
    exact hl hb

lemma slug_props (name : List Char) :
    (∀ c ∈ slugify name, isLowerAlnum c = true ∨ c = '-') ∧
    List.Chain' (fun a b => a = '-' → isLowerAlnum b = true) (slugify name) ∧
    (∀ b, (slugify name).head? = some b → isLowerAlnum b = true) ∧
    (∀ b, (slugify name).getLast? = some b → b ≠ '-') := by
  refine ⟨?_, ?_, ?_, ?_⟩
  · intro c hc
    exact mem_collapseAux false _ c
      (mem_stripLeadingHyphen _ c (mem_stripTrailingHyphen _ c hc))
  · exact chain'_stripTrailingHyphen _
      (chain'_stripLeadingHyphen _ (chain'_collapseAux false _))
  · intro b hb
    exact head?_stripLeading_collapse _ b (head?_stripTrailingHyphen _ b hb)
  · exact getLast?_stripTrailingHyphen _
      (chain'_stripLeadingHyphen _ (chain'_collapseAux false _))

lemma jsToLower_fix (c : Char) (h : isLowerAlnum c = true ∨ c = '-') :
    jsToLower c = c := by
  have hn : ¬(65 ≤ c.toNat ∧ c.toNat ≤ 90) := by
    rcases h with h | h
    · simp only [isLowerAlnum, Bool.or_eq_true, Bool.and_eq_true,
        decide_eq_true_eq] at h
      omega
    · rw [h]
      decide
  simp [jsToLower, hn]

lemma notApostrophe_fix (c : Char) (h : isLowerAlnum c = true ∨ c = '-') :
    notApostrophe c = true := by
  rcases h with h | h
  · simp only [isLowerAlnum, Bool.or_eq_true, Bool.and_eq_true,
      decide_eq_true_eq] at h
    simp only [notApostrophe, bne_iff_ne, ne_eq]
    omega
  · rw [h]
    decide

lemma stripLeadingHyphen_of_head (t : List Char)
    (h : ∀ b, t.head? = some b → isLowerAlnum b = true) :
    stripLeadingHyphen t = t := by
  cases t with
  | nil => rfl
  | cons a rest =>
      have ha := h a rfl
      have ha' : ¬(a = '-') := fun hh => by rw [hh] at ha; exact absurd ha (by decide)
      simp [stripLeadingHyphen, ha']

lemma stripTrailingHyphen_of_last (t : List Char)
    (h : ∀ b, t.getLast? = some b → b ≠ '-') :
    stripTrailingHyphen t = t := by
  unfold stripTrailingHyphen
  by_cases hl : t.getLast? = some '-'
  · exact absurd rfl (h '-' hl)
  · rw [if_neg hl]

/-- C9, confirmed.  slugify is idempotent, and two inputs with the same
character-wise lower-casing (inputs differing only in letter casing)
produce the same slug. -/
theorem slugify_spec :
    (∀ name, slugify (slugify name) = slugify name) ∧
    (∀ x y, x.map jsToLower = y.map jsToLower → slugify x = slugify y) := by
  constructor
  · intro name
    obtain ⟨hchar, hchain, hhead, hlast⟩ := slug_props name
    have h1 : (slugify name).map jsToLower = slugify name := by
      rw [List.map_congr_left fun c hc => jsToLower_fix c (hchar c hc)]
      exact List.map_id _
    have h2 : (slugify name).filter notApostrophe = slugify name :=
      List.filter_eq_self.mpr fun c hc => notApostrophe_fix c (hchar c hc)
    have h3 : collapseRuns (slugify name) = slugify name :=
      collapseAux_false_fix _ hchar hchain
    calc slugify (slugify name)
        = stripTrailingHyphen (stripLeadingHyphen (collapseRuns
            (((slugify name).map jsToLower).filter notApostrophe))) := rfl
      _ = stripTrailingHyphen (stripLeadingHyphen (slugify name)) := by
            rw [h1, h2, h3]
      _ = stripTrailingHyphen (slugify name) := by
            rw [stripLeadingHyphen_of_head _ hhead]
      _ = slugify name := stripTrailingHyphen_of_last _ hlast
  · intro x y h
    unfold slugify
    rw [h]

/-- Witness for C9: idempotence at a concrete name and case-insensitivity
at a concrete pair of names differing only in casing. -/
theorem slugify_spec_witness :
    slugify (slugify "Den Haag".toList) = slugify "Den Haag".toList ∧
    "AB".toList.map jsToLower = "ab".toList.map jsToLower ∧
    slugify "AB".toList = slugify "ab".toList :=
  ⟨slugify_spec.1 _, by decide, slugify_spec.2 _ _ (by decide)⟩

lemma find?_filter_superset (p q : List Char → Bool) (l : List (List Char))
    (h : ∀ x, q x = false → p x = false) :
    (l.filter q).find? p = l.find? p := by
  induction l with
  | nil => rfl
  | cons a rest ih =>
      by_cases hq : q a = true
      · rw [List.filter_cons_of_pos hq]
        by_cases hp : p a = true
        · rw [List.find?_cons_of_pos _ hp, List.find?_cons_of_pos _ hp]
        · rw [List.find?_cons_of_neg _ hp, List.find?_cons_of_neg _ hp]
          exact ih
      · have hq' : q a = false := by simpa using hq
        rw [List.filter_cons_of_neg (by simp [hq'])]
        have hp : p a = false := h a hq'
        rw [List.find?_cons_of_neg _ (by simp [hp])]
        exact ih

lemma find?_uniqueFirst (p : List Char → Bool) (l : List (List Char)) :
    (uniqueFirst l).find? p = l.find? p := by
  induction l with
  | nil => rfl
  | cons a rest ih =>
      show (a :: (uniqueFirst rest).filter (fun b => !(b == a))).find? p = _
      by_cases hp : p a = true
      · rw [List.find?_cons_of_pos _ hp, List.find?_cons_of_pos _ hp]
      · rw [List.find?_cons_of_neg _ hp, List.find?_cons_of_neg _ hp]
        rw [find?_filter_superset p (fun b => !(b == a)) (uniqueFirst rest) ?_]
        · exact ih
        · intro x hx
          have hxa : x = a := by simpa using hx
          rw [hxa]
          simpa using hp

/-- C10, confirmed.  Slug lookup round-trip: a name occurring in the
dataset is found under its own slug with an equal-slug result; the lookup
is none exactly when no record's name slugifies to the query; and a found
name is the municipality of a record before which no record's name
matches the query slug (the first matching name in first-occurrence
dataset order). -/
theorem findMunicipalityBySlug_spec (data : List Record) (slug n : List Char) :
    ((∃ r ∈ data, r.municipality = n) →
      ∃ m, findMunicipalityBySlug data (slugify n) = some m ∧
        slugify m = slugify n) ∧
    (findMunicipalityBySlug data slug = none ↔
      ∀ r ∈ data, slugify r.municipality ≠ slug) ∧
    (∀ m, findMunicipalityBySlug data slug = some m →
      slugify m = slug ∧
      ∃ pre r post, data = pre ++ r :: post ∧ r.municipality = m ∧
        ∀ r' ∈ pre, slugify r'.municipality ≠ slug) := by
  have hkey : ∀ q : List Char, findMunicipalityBySlug data q =
      (data.map (fun r => r.municipality)).find? (fun name => slugify name == q) := by
    intro q
    unfold findMunicipalityBySlug
    exact find?_uniqueFirst _ _
  refine ⟨?_, ?_, ?_⟩
  · rintro ⟨r, hr, hrn⟩
    rw [hkey]
    cases hfind : (data.map (fun r => r.municipality)).find?
        (fun name => slugify name == slugify n) with
    | none =>
        exfalso
        have hnone := List.find?_eq_none.mp hfind n (List.mem_map.mpr ⟨r, hr, hrn⟩)
        simp at hnone
    | some m =>
        have hm := List.find?_some hfind
        exact ⟨m, rfl, by simpa using hm⟩
  · rw [hkey, List.find?_eq_none]
    constructor
    · intro h r hr
      have := h r.municipality (List.mem_map.mpr ⟨r, hr, rfl⟩)
      simpa using this
    · intro h x hx
      obtain ⟨r, hr, rfl⟩ := List.mem_map.mp hx
      simpa using h r hr
  · intro m hm
    rw [hkey] at hm
    obtain ⟨hpm, as, bs, hsplit, hfail⟩ := List.find?_eq_some.mp hm
    have hslug : slugify m = slug := by simpa using hpm
    refine ⟨hslug, ?_⟩
    obtain ⟨pre, l2, hdata, hmap1, hmap2⟩ := List.map_eq_append_iff.mp hsplit
    obtain ⟨r, post, hl2, hrm, hpost⟩ := List.map_eq_cons_iff.mp hmap2
    refine ⟨pre, r, post, by rw [hdata, hl2], hrm, ?_⟩
    intro r' hr'
    have hmem : r'.municipality ∈ as := by
      rw [← hmap1]
      exact List.mem_map_of_mem _ hr'
    have := hfail r'.municipality hmem
    simpa using this

/-- Witness for C10: the round-trip at a concrete name of the example
dataset. -/
theorem findMunicipalityBySlug_spec_witness :
    (∃ r ∈ sampleData, r.municipality = "A".toList) ∧
    (∃ m, findMunicipalityBySlug sampleData (slugify "A".toList) = some m ∧
      slugify m = slugify "A".toList) :=
  ⟨by decide,
   (findMunicipalityBySlug_spec sampleData (slugify "A".toList) "A".toList).1
     (by decide)⟩

lemma find?_key_of_mem {α β : Type} [BEq α] [LawfulBEq α]
    (l : List (α × β)) (hnd : (l.map Prod.fst).Nodup) (k : α) (v : β)
    (he : (k, v) ∈ l) :
    l.find? (fun x => x.1 == k) = some (k, v) := by
  induction l with
  | nil => simp at he
  | cons a rest ih =>
      simp only [List.map_cons, List.nodup_cons] at hnd
      rcases List.mem_cons.mp he with rfl | he'
      · exact List.find?_cons_of_pos _ (by simp)
      · have hne : a.1 ≠ k := by
          intro hh
          exact hnd.1 (hh ▸ List.mem_map_of_mem Prod.fst he')
        rw [List.find?_cons_of_neg _ (by simp [hne])]
        exact ih hnd.2 he'

lemma map_add_one_enumFrom {α : Type} : ∀ (l : List α) (k : ℕ),
    (List.enumFrom k l).map (fun p => p.1 + 1) = List.range' (k + 1) l.length := by
  intro l
  induction l with
  | nil => intro k; rfl
  | cons a rest ih =>
      intro k
      simp only [List.enumFrom, List.map_cons, List.length_cons, List.range']
      rw [ih (k + 1)]

lemma rankingEntries_map_fst (data : List Record) (y : ℤ) :
    (rankingEntries data y).map Prod.fst =
      (sortedYearRecords data y).map
        (fun r => normalizeMunicipalityName r.municipality) := by
  unfold rankingEntries
  rw [List.map_map]
  have hcomp : (Prod.fst ∘ fun p : ℕ × Record =>
      (normalizeMunicipalityName p.2.municipality, p.1 + 1,
        (sortedYearRecords data y).length)) =
      (fun r => normalizeMunicipalityName r.municipality) ∘ Prod.snd := rfl
  rw [hcomp, ← List.map_map, List.enum_map_snd]

/-- C4, corrected.  Under the hypothesis that the normalized names of the
year's records are pairwise distinct (which the unrestricted claim lacks,
see rankings_collision_counterexample), the per-year ranking sorts the
year's records ascending by consumption (stably), stores under each
record's normalized name the rank equal to its 1-based sorted position
together with a total equal to the number N of records of that year, the
written ranks are exactly the contiguous sequence 1..N, and every stored
entry comes from a record of that year. -/
theorem rankings_spec (data : List Record) (y : ℤ)
    (hnd : ((yearRecords data y).map
      (fun r => normalizeMunicipalityName r.municipality)).Nodup) :
    List.Sorted consLe (sortedYearRecords data y) ∧
    (sortedYearRecords data y).Perm (yearRecords data y) ∧
    (sortedYearRecords data y).length = yearCount data y ∧
    (rankingEntries data y).map (fun e => e.2.1) =
      List.range' 1 (yearCount data y) ∧
    (∀ i r, (sortedYearRecords data y).get? i = some r →
      rankingLookup data y (normalizeMunicipalityName r.municipality) =
        some (i + 1, yearCount data y)) ∧
    (∀ name k t, rankingLookup data y name = some (k, t) →
      t = yearCount data y ∧
      ∃ r ∈ yearRecords data y, normalizeMunicipalityName r.municipality = name) := by
  have hperm : (sortedYearRecords data y).Perm (yearRecords data y) :=
    List.perm_insertionSort consLe (yearRecords data y)
  have hlen : (sortedYearRecords data y).length = yearCount data y :=
    hperm.length_eq
  have hnames : ((sortedYearRecords data y).map
      (fun r => normalizeMunicipalityName r.municipality)).Nodup :=
    ((hperm.map _).nodup_iff).mpr hnd
  have hkeys : ((rankingEntries data y).map Prod.fst).Nodup := by
    rw [rankingEntries_map_fst]
    exact hnames
  refine ⟨List.sorted_insertionSort consLe _, hperm, hlen, ?_, ?_, ?_⟩
  · unfold rankingEntries
    rw [List.map_map]
    have hcomp : ((fun e : List Char × ℕ × ℕ => e.2.1) ∘ fun p : ℕ × Record =>
        (normalizeMunicipalityName p.2.municipality, p.1 + 1,
          (sortedYearRecords data y).length)) = fun p : ℕ × Record => p.1 + 1 := rfl
    rw [hcomp, List.enum_eq_enumFrom, map_add_one_enumFrom, hlen]
  · intro i r hget
    have hent : (rankingEntries data y).get? i =
        some (normalizeMunicipalityName r.municipality, i + 1,
          (sortedYearRecords data y).length) := by
      unfold rankingEntries
      rw [List.get?_eq_getElem?, List.getElem?_map, List.getElem?_enum]
      rw [List.get?_eq_getElem?] at hget
      rw [hget]
      rfl
    have hmem : (normalizeMunicipalityName r.municipality,
        (i + 1, (sortedYearRecords data y).length)) ∈ rankingEntries data y :=
      List.get?_mem hent
    have hrevnd : ((rankingEntries data y).reverse.map Prod.fst).Nodup := by
      rw [List.map_reverse]
      exact List.nodup_reverse.mpr hkeys
    have hfind := find?_key_of_mem ((rankingEntries data y).reverse) hrevnd
      (normalizeMunicipalityName r.municipality)
      ((i + 1, (sortedYearRecords data y).length))
      (List.mem_reverse.mpr hmem)
    unfold rankingLookup
    rw [hfind, hlen]
    rfl
  · intro name k t hlk
    unfold rankingLookup at hlk
    obtain ⟨e, hfind, he2⟩ := Option.map_eq_some'.mp hlk
    have hmem := List.mem_of_find?_eq_some hfind
    have hkey : e.1 = name := by simpa using List.find?_some hfind
    rw [List.mem_reverse] at hmem
    unfold rankingEntries at hmem
    obtain ⟨p, hp, hpe⟩ := List.mem_map.mp hmem
    have hsnd : p.2 ∈ sortedYearRecords data y := by
      have h5 : p.2 ∈ (sortedYearRecords data y).enum.map Prod.snd :=
        List.mem_map_of_mem _ hp
      rwa [List.enum_map_snd] at h5
    have hr : p.2 ∈ yearRecords data y := (hperm.mem_iff).mp hsnd
    constructor
    · have h6 : e.2.2 = (sortedYearRecords data y).length := by
        rw [← hpe]
      rw [he2] at h6
      have h7 : t = (sortedYearRecords data y).length := by simpa using h6
      exact h7.trans hlen
    · refine ⟨p.2, hr, ?_⟩
      rw [← hpe] at hkey
      exact hkey

/-- C4, counterexample to the unrestricted claim: when two records of one
year normalize to the same name, the later write wins, so the first
sorted record's name carries rank 2 of 2 and rank 1 is stored nowhere,
violating both the per-record rank assignment and the contiguous 1..N
range. -/
theorem rankings_collision_counterexample :
    (yearRecords collisionData 2020).length = 2 ∧
    ((sortedYearRecords collisionData 2020).get? 0).map
        (fun r => normalizeMunicipalityName r.municipality) =
      some ("A".toList) ∧
    rankingLookup collisionData 2020 ("A".toList) = some (2, 2) :=
  ⟨by decide, by decide, by decide⟩

/-- Witness for the corrected C4 on the example dataset. -/
theorem rankings_spec_witness :
    ((yearRecords sampleData 2020).map
        (fun r => normalizeMunicipalityName r.municipality)).Nodup ∧
    (sortedYearRecords sampleData 2020).get? 0 =
      some ⟨"A".toList, 2020, 1000⟩ ∧
    rankingLookup sampleData 2020
        (normalizeMunicipalityName ("A".toList)) =
      some (0 + 1, yearCount sampleData 2020) :=
  ⟨by decide, by decide,
   (rankings_spec sampleData 2020 (by decide)).2.2.2.2.1 0
     ⟨"A".toList, 2020, 1000⟩ (by decide)⟩

lemma yearSum_append (data : List Record) (r : Record) (y : ℤ) :
    yearSum (data ++ [r]) y =
      yearSum data y + (if r.year = y then r.gas_consumption else 0) := by
  by_cases h : r.year = y
  · simp [yearSum, List.filter_append, List.filter_cons, h]
  · simp [yearSum, List.filter_append, List.filter_cons, h]

lemma yearCount_append (data : List Record) (r : Record) (y : ℤ) :
    yearCount (data ++ [r]) y =
      yearCount data y + (if r.year = y then 1 else 0) := by
  by_cases h : r.year = y
  · simp [yearCount, List.filter_append, List.filter_cons, h]
  · simp [yearCount, List.filter_append, List.filter_cons, h]

lemma yearSum_of_count_zero (data : List Record) (y : ℤ)
    (h : yearCount data y = 0) : yearSum data y = 0 := by
  unfold yearCount at h
  rw [List.length_eq_zero] at h
  unfold yearSum
  rw [h]
  rfl

lemma yearCount_ne_zero_iff (data : List Record) (y : ℤ) :
    yearCount data y ≠ 0 ↔ ∃ r ∈ data, r.year = y := by
  unfold yearCount
  rw [Ne, List.length_eq_zero, List.filter_eq_nil_iff]
  push_neg
  simp [beq_iff_eq]

lemma yearlyTotals_spec (data : List Record) :
    ((yearlyTotals data).map Prod.fst).Nodup ∧
    ∀ y : ℤ, (yearlyTotals data).find? (fun e => e.1 == y) =
      (if yearCount data y = 0 then none
       else some (y, yearSum data y, yearCount data y)) := by
  induction data using List.reverseRecOn with
  | nil =>
      refine ⟨by simp [yearlyTotals], fun y => ?_⟩
      simp [yearlyTotals, yearCount]
  | append_singleton data r ih =>
      obtain ⟨ihnd, ihlk⟩ := ih
      have hYT : yearlyTotals (data ++ [r]) = addRecord (yearlyTotals data) r := by
        unfold yearlyTotals
        rw [List.foldl_append]
        rfl
      by_cases hany : (yearlyTotals data).any (fun e => e.1 == r.year) = true
      · have haddr : addRecord (yearlyTotals data) r =
            (yearlyTotals data).map (fun e =>
              if e.1 = r.year then (e.1, e.2.1 + r.gas_consumption, e.2.2 + 1)
              else e) := by
          unfold addRecord
          rw [if_pos hany]
        have hnz : yearCount data r.year ≠ 0 := by
          intro h0
          obtain ⟨e, heL, hekey⟩ := List.any_eq_true.mp hany
          have hnone := ihlk r.year
          rw [if_pos h0] at hnone
          exact List.find?_eq_none.mp hnone e heL hekey
        have hfst : ((yearlyTotals data).map (fun e =>
            if e.1 = r.year then (e.1, e.2.1 + r.gas_consumption, e.2.2 + 1)
            else e)).map Prod.fst = (yearlyTotals data).map Prod.fst := by
          rw [List.map_map]
          apply List.map_congr_left
          intro e _
          by_cases he : e.1 = r.year
          · simp [he]
          · simp [he]
        constructor
        · rw [hYT, haddr, hfst]
          exact ihnd
        · intro y
          rw [hYT, haddr, List.find?_map]
          have hpf : ((fun e : ℤ × ℚ × ℕ => e.1 == y) ∘ (fun e =>
              if e.1 = r.year then (e.1, e.2.1 + r.gas_consumption, e.2.2 + 1)
              else e)) = (fun e : ℤ × ℚ × ℕ => e.1 == y) := by
            funext e
            by_cases he : e.1 = r.year
            · simp [he]
            · simp [he]
          rw [hpf, ihlk y]
          by_cases hy : y = r.year
          · have hry : r.year = y := hy.symm
            have hc : yearCount (data ++ [r]) y = yearCount data y + 1 := by
              rw [yearCount_append, if_pos hry]
            have hs : yearSum (data ++ [r]) y = yearSum data y + r.gas_consumption := by
              rw [yearSum_append, if_pos hry]
            have hnz' : yearCount data y ≠ 0 := by
              rw [hy]
              exact hnz
            rw [hc, hs, if_neg hnz']
            simp [hy]
          · have hyr : ¬(r.year = y) := fun h => hy h.symm
            have hc : yearCount (data ++ [r]) y = yearCount data y := by
              rw [yearCount_append]
              simp [hyr]
            have hs : yearSum (data ++ [r]) y = yearSum data y := by
              rw [yearSum_append]
              simp [hyr]
            rw [hc, hs]
            by_cases h0 : yearCount data y = 0
            · simp [h0]
            · simp [h0, hy]
      · have haddr : addRecord (yearlyTotals data) r =
            yearlyTotals data ++ [(r.year, r.gas_consumption, 1)] := by
          unfold addRecord
          rw [if_neg hany]
        have h0 : yearCount data r.year = 0 := by
          by_contra h0
          have hfd := ihlk r.year
          rw [if_neg h0] at hfd
          exact hany (List.any_eq_true.mpr
            ⟨(r.year, yearSum data r.year, yearCount data r.year),
             List.mem_of_find?_eq_some hfd, by simp⟩)
        constructor
        · rw [hYT, haddr, List.map_append, List.nodup_append]
          refine ⟨ihnd, by simp, ?_⟩
          intro a haL haR
          simp only [List.map_cons, List.map_nil, List.mem_singleton] at haR
          subst haR
          obtain ⟨e, heL, hekey⟩ := List.mem_map.mp haL
          exact absurd (List.any_eq_true.mpr ⟨e, heL, by simp [hekey]⟩) hany
        · intro y
          rw [hYT, haddr, List.find?_append, ihlk y]
          by_cases hy : y = r.year
          · have hry : r.year = y := hy.symm
            have hc : yearCount (data ++ [r]) y = yearCount data y + 1 := by
              rw [yearCount_append, if_pos hry]
            have hs : yearSum (data ++ [r]) y = yearSum data y + r.gas_consumption := by
              rw [yearSum_append, if_pos hry]
            have h0' : yearCount data y = 0 := by
              rw [hy]
              exact h0
            rw [hc, hs, if_pos h0', h0', yearSum_of_count_zero data y h0']
            simp [hy]
          · have hyr : ¬(r.year = y) := fun h => hy h.symm
            have hc : yearCount (data ++ [r]) y = yearCount data y := by
              rw [yearCount_append]
              simp [hyr]
            have hs : yearSum (data ++ [r]) y = yearSum data y := by
              rw [yearSum_append]
              simp [hyr]
            rw [hc, hs]
            by_cases h0' : yearCount data y = 0
            · simp [h0', hyr]
            · simp [h0', hyr]

/-- C5, confirmed.  calculateNationalAverages has one entry per distinct
year of the dataset (distinct keys, and a year is present exactly when
some record has it), is sorted ascending by year, and each entry carries
the rounded arithmetic mean of that year's consumption values; on the
example dataset the 2020 average is 1500. -/
theorem calculateNationalAverages_spec (data : List Record) :
    ((calculateNationalAverages data).map Prod.fst).Nodup ∧
    (∀ y, y ∈ (calculateNationalAverages data).map Prod.fst ↔
      ∃ r ∈ data, r.year = y) ∧
    List.Sorted yearLe (calculateNationalAverages data) ∧
    (∀ e ∈ calculateNationalAverages data,
      e.2 = jsRound (yearSum data e.1 / (yearCount data e.1 : ℚ))) ∧
    calculateNationalAverages sampleData = [(2020, 1500), (2021, 1100)] := by
  obtain ⟨hnd, hlk⟩ := yearlyTotals_spec data
  have hperm : (calculateNationalAverages data).Perm
      ((yearlyTotals data).map (fun e => (e.1, jsRound (e.2.1 / (e.2.2 : ℚ))))) :=
    List.perm_insertionSort yearLe _
  have hmapfst : (((yearlyTotals data).map
      (fun e => (e.1, jsRound (e.2.1 / (e.2.2 : ℚ))))).map Prod.fst) =
      (yearlyTotals data).map Prod.fst := by
    rw [List.map_map]
    rfl
  have hkeyperm : ((calculateNationalAverages data).map Prod.fst).Perm
      ((yearlyTotals data).map Prod.fst) := by
    have hp2 := hperm.map Prod.fst
    rwa [hmapfst] at hp2
  refine ⟨?_, ?_, List.sorted_insertionSort yearLe _, ?_, ?_⟩
  · exact hkeyperm.nodup_iff.mpr hnd
  · intro y
    rw [hkeyperm.mem_iff]
    constructor
    · intro hy
      obtain ⟨e, heL, hekey⟩ := List.mem_map.mp hy
      rw [← yearCount_ne_zero_iff]
      intro h0
      have hnone := hlk y
      rw [if_pos h0] at hnone
      exact List.find?_eq_none.mp hnone e heL (by simp [hekey])
    · intro hr
      have h0 := (yearCount_ne_zero_iff data y).mpr hr
      have hfd := hlk y
      rw [if_neg h0] at hfd
      exact List.mem_map.mpr ⟨_, List.mem_of_find?_eq_some hfd, rfl⟩
  · intro e he
    have hmem := (hperm.mem_iff).mp he
    obtain ⟨t, htL, hte⟩ := List.mem_map.mp hmem
    have hget := find?_key_of_mem (yearlyTotals data) hnd t.1 t.2
      (by simpa using htL)
    have hfd := hlk t.1
    by_cases h0 : yearCount data t.1 = 0
    · rw [if_pos h0] at hfd
      rw [hfd] at hget
      exact absurd hget (by simp)
    · rw [if_neg h0] at hfd
      rw [hget] at hfd
      have h2 : t.2 = (yearSum data t.1, yearCount data t.1) := by
        have h3 := Option.some.inj hfd
        exact congrArg Prod.snd h3
      rw [← hte]
      simp [h2]
  · norm_num [calculateNationalAverages, yearlyTotals, addRecord, sampleData,
      jsRound, List.insertionSort, List.orderedInsert, yearLe]

/-- Witness for C5: the 2020 entry of the example dataset is present and
carries the rounded mean. -/
theorem calculateNationalAverages_spec_witness :
    ((2020 : ℤ), (1500 : ℤ)) ∈ calculateNationalAverages sampleData ∧
    (((2020 : ℤ), (1500 : ℤ)) : ℤ × ℤ).2 =
      jsRound (yearSum sampleData (((2020 : ℤ), (1500 : ℤ)) : ℤ × ℤ).1 /
        (yearCount sampleData (((2020 : ℤ), (1500 : ℤ)) : ℤ × ℤ).1 : ℚ)) := by
  have h := calculateNationalAverages_spec sampleData
  have hm : ((2020 : ℤ), (1500 : ℤ)) ∈ calculateNationalAverages sampleData := by
    rw [h.2.2.2.2]
    simp
  exact ⟨hm, h.2.2.2.1 _ hm⟩

end GasApp
